import Mathlib

/-!
Shallow embedding of the card-search engine: tokenizer/normalizer and
intent classifier (src/unnamed/part_001, `search-utils.js`) and the
retrieval/scoring entry points (src/extension/lib/card-db.js).

Conventions of the embedding:
* JS strings are Lean `String`s, manipulated through their `List Char`
  data; character classes are restricted to the ASCII ranges the card
  names and queries use (`\w` = `[A-Za-z0-9_]`, `\s` = ASCII whitespace,
  plus the two Unicode dashes the source names explicitly).
* `String.prototype.split` on a character-class regex such as
  `/[\s-–—]+/` splits on *runs* of separators; every call site in the
  source immediately filters out empty fragments, and splitting run-wise
  then dropping empties equals splitting character-wise then dropping
  empties, so `splitOnP` splits at every separator character.
* Fields that JS may leave `undefined` are `Option`s; JS truthiness of a
  string is "not empty and present", of an array "present".
* JS numbers are embedded as `ℚ` (scores mix integers with the literal
  `0.1`); `String.prototype.indexOf` returns an `Int` (`-1` = absent).
* The IndexedDB cursor scans of `card-db.js` enumerate stored records
  and collect those passing the cursor's filter; they are embedded as
  `List.filter` over the catalog, the list order standing for the scan
  order.
-/

/-- ASCII whitespace, the fragment of the JS `\s` class relevant here:
space, tab, LF, VT, FF, CR. -/
def isWsChar (c : Char) : Bool :=
  c == ' ' || c == '\t' || c == '\n' || c == '\r' ||
  c == Char.ofNat 11 || c == Char.ofNat 12

/-- Separator class of `extractTokens`: `[\s-–—]` (whitespace, hyphen,
en dash, em dash). -/
def isSepChar (c : Char) : Bool :=
  isWsChar c || c == '-' || c == '–' || c == '—'

/-- `[a-z]`. -/
def isLowerAlpha (c : Char) : Bool :=
  'a' ≤ c && c ≤ 'z'

/-- JS `\w`, i.e. `[A-Za-z0-9_]`. -/
def isWordChar (c : Char) : Bool :=
  ('a' ≤ c && c ≤ 'z') || ('A' ≤ c && c ≤ 'Z') || ('0' ≤ c && c ≤ '9') || c == '_'

/-- The ASCII apostrophe (the character class `['']` of
`normalizeForSearch` lists it twice). -/
def apostropheChar : Char := Char.ofNat 39

/-- `String.prototype.toLowerCase`, ASCII fragment. -/
def jsToLower (s : String) : String :=
  String.mk (s.data.map Char.toLower)

/-- `String.prototype.toUpperCase`, ASCII fragment. -/
def jsToUpper (s : String) : String :=
  String.mk (s.data.map Char.toUpper)

/-- `String.prototype.trim`: drop leading and trailing whitespace. -/
def trimChars (l : List Char) : List Char :=
  ((l.dropWhile isWsChar).reverse.dropWhile isWsChar).reverse

/-- JS `String.prototype.trim` on `String`s. -/
def jsTrim (s : String) : String :=
  String.mk (trimChars s.data)

/-- Split at every character satisfying `p` (see the header note: all
call sites drop empty fragments, so this equals JS run-wise splitting
followed by the same dropping). -/
def splitOnP (p : Char → Bool) : List Char → List (List Char)
  | [] => [[]]
  | c :: cs =>
    if p c then [] :: splitOnP p cs
    else
      match splitOnP p cs with
      | [] => [[c]]
      | r :: rs => (c :: r) :: rs

/-- `String.prototype.startsWith`. -/
def jsStartsWith (s pre : String) : Bool :=
  decide (pre.data <+: s.data)

/-- Index of the first position of `s` where `pat` begins, if any. -/
def firstOccurrence (pat : List Char) : List Char → Option Nat
  | [] => if pat = [] then some 0 else none
  | c :: t => if pat <+: (c :: t) then some 0 else (firstOccurrence pat t).map (· + 1)

/-- `String.prototype.indexOf`: first occurrence index, `-1` if absent. -/
def jsIndexOf (s pat : String) : Int :=
  match firstOccurrence pat.data s.data with
  | some n => (n : Int)
  | none => -1

/-- `Array.prototype.findIndex`, with `none` standing for JS `-1`. -/
def findFirstIdx (pred : String → Bool) : List String → Option Nat
  | [] => none
  | x :: t => if pred x then some 0 else (findFirstIdx pred t).map (· + 1)

/-- `STOP_WORDS` of `search-utils.js`. -/
def STOP_WORDS : List String := ["of", "the", "and", "a", "an", "for", "to", "in"]

/-- The fragments `extractTokens` produces before filtering:
`name.toLowerCase().split(/[\s-–—]+/)` (with the empty fragments the
character-wise split adds, removed by the very next filter). -/
def fragmentsOf (name : String) : List String :=
  (splitOnP isSepChar (jsToLower name).data).map String.mk

/-- `extractTokens` of `search-utils.js`: lowercase, split on
whitespace/dashes, drop empty fragments, drop stop words. -/
def extractTokens (name : String) : List String :=
  ((fragmentsOf name).filter (fun t => 0 < t.length)).filter
    (fun t => !(STOP_WORDS.contains t))

/-- `generateInitials`: `tokens.map(token => token.charAt(0)).join("")`
(`charAt(0)` of a string is its first character, or nothing when the
string is empty, hence `take 1`). -/
def generateInitials (name : String) : String :=
  String.mk (((extractTokens name).map (fun t => t.data.take 1)).flatten)

/-- `generateProgressiveInitials`: the loop
`for (i = 1; i <= initials.length; i++) push(initials.substring(0, i))`. -/
def generateProgressiveInitials (name : String) : List String :=
  let initials := generateInitials name
  (List.range initials.length).map (fun i => String.mk (initials.data.take (i + 1)))

/-- `normalizeForSearch`: lowercase, delete apostrophes, delete
`[^\w\s-]`, trim. -/
def normalizeForSearch (name : String) : String :=
  String.mk (trimChars
    (((jsToLower name).data.filter (fun c => !(c == apostropheChar))).filter
      (fun c => isWordChar c || isWsChar c || c == '-')))

/-- `matchesTokenPrefixes`: an empty query token list never matches;
otherwise every query token must be a prefix of some card token. -/
def matchesTokenPrefixes (queryTokens cardTokens : List String) : Bool :=
  if queryTokens.length = 0 then false
  else queryTokens.all (fun q => cardTokens.any (fun c => jsStartsWith c q))

/-- The intent object `detectSearchIntent` returns.  Fields that a
branch leaves `undefined` get the defaults below (`""`/`[]`), matching
how the rest of the code consumes them (JS `undefined` is falsy, like
`""`; `intent.tokens` is only read on the branch that sets it). -/
structure Intent where
  strategy : String
  query : String
  originalCase : String := ""
  tokens : List String := []
  firstToken : String := ""
  deriving DecidableEq, Repr

/-- The regex `/^[a-z](\s+[a-z])+$/i` of the space-initials branch,
specialised to the already-lowercased trimmed input: a single letter,
then one or more groups of whitespace plus a single letter. -/
def spaceInitialsPat (l : List Char) : Bool :=
  (match l.head? with | some c => !isWsChar c | none => false) &&
  (match l.getLast? with | some c => !isWsChar c | none => false) &&
  (let segs := (splitOnP isWsChar l).filter (fun s => 0 < s.length)
   2 ≤ segs.length && segs.all (fun s => s.length = 1 && s.all isLowerAlpha))

/-- `detectSearchIntent` of `search-utils.js`. -/
def detectSearchIntent (query : String) : Intent :=
  let trimmed := jsToLower (jsTrim query)
  if trimmed == "" then
    { strategy := "empty", query := trimmed }
  else if (trimmed.data.all isLowerAlpha && 2 ≤ trimmed.length) &&
      query == jsToUpper query then
    { strategy := "initials", query := trimmed, originalCase := query }
  else if spaceInitialsPat trimmed.data then
    { strategy := "space_initials",
      query := String.mk (trimmed.data.filter (fun c => !isWsChar c)),
      originalCase := String.mk (query.data.filter (fun c => !isWsChar c)) }
  else if trimmed.data.contains ' ' then
    let tokens := ((splitOnP isWsChar trimmed.data).map String.mk).filter
      (fun t => 0 < t.length)
    { strategy := "multi_token", query := trimmed, tokens := tokens,
      firstToken := tokens.headD "" }
  else
    { strategy := "prefix", query := trimmed }

/-- Card record as stored by `toCardRecord` in `card-db.js`; `Option`
marks the fields that legacy (pre-migration) records may lack. -/
structure Card where
  name : Option String := none
  name_lower : Option String := none
  name_normalized : Option String := none
  search_normalized : String := ""
  first_letter : String := ""
  tokens : Option (List String) := none
  initials : Option String := none
  progressive_initials : Option (List String) := none
  set_code : String := ""
  deriving DecidableEq, Repr

/-- JS `a || b` for possibly-absent strings: the default is used when
the field is missing or empty (both are falsy). -/
def jsOrStr : Option String → String → String
  | some s, d => if s == "" then d else s
  | none, d => d

/-- `card.name_normalized || card.name_lower || card.name || ""`. -/
def nameToMatch (c : Card) : String :=
  jsOrStr c.name_normalized (jsOrStr c.name_lower (jsOrStr c.name ""))

/-- JS truthiness test `!card.tokens`: only a missing array is falsy. -/
def tokensFalsy (c : Card) : Bool := c.tokens.isNone

/-- JS truthiness test `!card.initials`: a missing or empty string is
falsy. -/
def initialsFalsy (c : Card) : Bool := c.initials.getD "" == ""

/-- The body of the `queryTokens.forEach((qToken, i) => ...)` loop in
the `multi_token` branch of `scoreMatch`: the accumulator carries the
running `score` and `matchedTokens` count; a found token adds its index
plus `i * 0.1` to the score and bumps the count. -/
def mtStep (cardTokens : List String) (acc : ℚ × Nat) (p : Nat × String) : ℚ × Nat :=
  match findFirstIdx (fun c => jsStartsWith c p.2) cardTokens with
  | some tokenIndex => (acc.1 + tokenIndex + (p.1 : ℚ) * (1/10), acc.2 + 1)
  | none => acc

/-- `scoreMatch` of `search-utils.js` (lower is better). -/
def scoreMatch (intent : Intent) (card : Card) : ℚ :=
  let strategy := intent.strategy
  let query := intent.query
  if tokensFalsy card || initialsFalsy card then
    -- migration fallback: no derived search fields on the record
    if strategy == "initials" || strategy == "space_initials" then
      if query == generateInitials (jsOrStr card.name "") then 0 else 1000
    else if strategy == "multi_token" then
      let fallbackTokens := extractTokens (jsOrStr card.name "")
      let queryTokens := intent.tokens
      let matchedTokens := (queryTokens.filter
        (fun q => fallbackTokens.any (fun c => jsStartsWith c q))).length
      if matchedTokens = queryTokens.length then 500 else 1000
    else if strategy == "prefix" then
      if jsIndexOf (nameToMatch card) query = 0 then 100 else 1000
    else 1000
  else
    -- new search fields available
    if strategy == "initials" then
      if query == card.initials.getD "" then 0 else 100
    else if strategy == "space_initials" then
      if query == card.initials.getD "" then 0 else 100
    else if strategy == "multi_token" then
      let queryTokens := intent.tokens
      let cardTokens := card.tokens.getD []
      let r := queryTokens.enum.foldl (mtStep cardTokens) (0, 0)
      if r.2 = queryTokens.length then r.1 else 1000
    else if strategy == "prefix" then
      let nameStart := jsIndexOf card.search_normalized query
      if nameStart = 0 then 0 else (nameStart : ℚ)
    else 1000

/-- `setFilter` test `!setFilter || setFilter.has(card.set_code)`. -/
def setOk (setFilter : Option (List String)) (c : Card) : Bool :=
  match setFilter with
  | none => true
  | some f => f.contains c.set_code

/-- `searchByInitials` of `card-db.js`: cursor over the catalog that
*skips* records whose `initials`/`progressive_initials` are missing
(falsy) and collects those whose initials start with the query or whose
progressive initials contain it. -/
def searchByInitials (query : String) (setFilter : Option (List String))
    (cards : List Card) : List Card :=
  cards.filter (fun card =>
    !(initialsFalsy card || card.progressive_initials.isNone) &&
    ((jsStartsWith (card.initials.getD "") query ||
        (card.progressive_initials.getD []).contains query) &&
      setOk setFilter card))

/-- `searchByMultiToken` of `card-db.js`: empty first token returns
nothing; the `by_first_letter` index restricts the scan to records whose
`first_letter` equals the first token's first character; records with no
`tokens` field are skipped; survivors must pass `matchesTokenPrefixes`
and the set filter. -/
def searchByMultiToken (tokens : List String) (firstToken : String)
    (setFilter : Option (List String)) (cards : List Card) : List Card :=
  if firstToken == "" then []
  else
    cards.filter (fun card =>
      card.first_letter == String.mk (firstToken.data.take 1) &&
      (!(tokensFalsy card) &&
        (matchesTokenPrefixes tokens (card.tokens.getD []) &&
          setOk setFilter card)))

/-- `searchByPrefix` of `card-db.js`: empty query returns nothing; the
cursor walks the `by_search_normalized` range of keys beginning with the
query, i.e. exactly the records whose `search_normalized` starts with
it, applying the set filter. -/
def searchByPrefix (query : String) (setFilter : Option (List String))
    (cards : List Card) : List Card :=
  if query == "" then []
  else
    cards.filter (fun card =>
      jsStartsWith card.search_normalized query && setOk setFilter card)

/-- The strategy dispatch of `searchCards`; `none` is the `default:`
branch, which returns the empty list from the whole function without
scoring. -/
def retrieveCandidates (intent : Intent) (setFilter : Option (List String))
    (cards : List Card) : Option (List Card) :=
  if intent.strategy == "initials" then
    some (searchByInitials intent.query setFilter cards)
  else if intent.strategy == "space_initials" then
    some (searchByInitials intent.query setFilter cards)
  else if intent.strategy == "multi_token" then
    some (searchByMultiToken intent.tokens intent.firstToken setFilter cards)
  else if intent.strategy == "prefix" then
    some (searchByPrefix intent.query setFilter cards)
  else none

/-- Score, stable-sort ascending (`scored.sort((a, b) => a.score - b.score)`),
truncate (`slice(0, maxResults)`), unwrap. -/
def rankCandidates (intent : Intent) (maxResults : Nat)
    (candidates : List Card) : List Card :=
  let scored := candidates.map (fun card => (card, scoreMatch intent card))
  let sorted := scored.mergeSort (fun a b => a.2 ≤ b.2)
  (sorted.take maxResults).map (fun p => p.1)

/-- `searchCards` after intent classification: dispatch, then score and
rank — or return `[]` straight away on an unknown strategy. -/
def searchWithIntent (intent : Intent) (setFilter : Option (List String))
    (maxResults : Nat) (cards : List Card) : List Card :=
  match retrieveCandidates intent setFilter cards with
  | none => []
  | some candidates => rankCandidates intent maxResults candidates

/-- `searchCards(query, activeSets, maxResults)` of `card-db.js` over a
catalog `cards`; an empty `activeSets` list stands for the absent/empty
filter. -/
def searchCards (query : String) (activeSets : List String)
    (maxResults : Nat) (cards : List Card) : List Card :=
  if jsTrim query == "" then []
  else
    let intent := detectSearchIntent query
    let setFilter :=
      if 0 < activeSets.length then some (activeSets.map jsToUpper) else none
    searchWithIntent intent setFilter maxResults cards

/-- Collapse each whitespace run to a single space (used only by the
spec-side normalizer below). -/
def collapseWs : List Char → List Char
  | [] => []
  | c :: t =>
    let r := collapseWs t
    if isWsChar c then
      match r with
      | d :: _ => if d == ' ' then r else ' ' :: r
      | [] => [' ']
    else c :: r

/-- The spec's description of `normalizeForSearch` (§3 `normalizedName`,
§4.1): lowercase, apostrophes removed, characters other than word
characters, whitespace and hyphens removed, *whitespace runs collapsed
to single spaces*, trimmed.  Written from the spec's words, to be
compared against `normalizeForSearch` above. -/
def normalizeForSearchSpec (name : String) : String :=
  String.mk (trimChars (collapseWs
    (((jsToLower name).data.filter (fun c => !(c == apostropheChar))).filter
      (fun c => isWordChar c || isWsChar c || c == '-'))))

/-! ### Helper lemmas -/

theorem string_eq_empty_iff (s : String) : s = "" ↔ s.data = [] := by
  constructor
  · intro h
    rw [h]
  · intro h
    cases s with
    | mk data => cases h; rfl

theorem findFirstIdx_isSome (g : String → Bool) :
    ∀ l : List String, (findFirstIdx g l).isSome = l.any g
  | [] => rfl
  | x :: t => by
    by_cases h : g x = true <;>
      simp [findFirstIdx, h, findFirstIdx_isSome g t]

theorem enumFrom_countP_snd (g : String → Bool) :
    ∀ (n : Nat) (l : List String),
      (List.enumFrom n l).countP (fun p => g p.2) = l.countP g
  | _, [] => rfl
  | n, x :: t => by
    simp [List.enumFrom, List.countP_cons, enumFrom_countP_snd g (n + 1) t]

theorem enumFrom_snd_mem {α : Type} {p : Nat × α} :
    ∀ {n : Nat} {l : List α}, p ∈ List.enumFrom n l → p.2 ∈ l := by
  intro n l
  induction l generalizing n with
  | nil => intro h; cases h
  | cons x t ih =>
    intro h
    rcases List.mem_cons.mp h with h | h
    · subst h; exact List.mem_cons_self _ _
    · exact List.mem_cons_of_mem _ (ih h)

/-- Score contribution of one query token (with its index) against the
record tokens: index of the first matching record token plus one tenth
of the query-token index, or nothing when no record token matches. -/
def mtContrib (cts : List String) (p : Nat × String) : ℚ :=
  match findFirstIdx (fun c => jsStartsWith c p.2) cts with
  | some i => (i : ℚ) + (p.1 : ℚ) * (1/10)
  | none => 0

theorem enum_countP_snd (g : String → Bool) (l : List String) :
    l.enum.countP (fun p => g p.2) = l.countP g :=
  enumFrom_countP_snd g 0 l

theorem enum_snd_mem {α : Type} {p : Nat × α} {l : List α}
    (h : p ∈ l.enum) : p.2 ∈ l :=
  enumFrom_snd_mem h

theorem foldl_mtStep (cts : List String) :
    ∀ (l : List (Nat × String)) (a : ℚ) (k : Nat),
      l.foldl (mtStep cts) (a, k)
      = (a + (l.map (mtContrib cts)).sum,
         k + l.countP (fun p =>
            (findFirstIdx (fun c => jsStartsWith c p.2) cts).isSome))
  | [], a, k => by simp
  | p :: t, a, k => by
    rw [List.foldl_cons]
    cases hf : findFirstIdx (fun c => jsStartsWith c p.2) cts with
    | some i =>
      have hstep : mtStep cts (a, k) p = (a + i + (p.1 : ℚ) * (1/10), k + 1) := by
        simp [mtStep, hf]
      have hcontrib : mtContrib cts p = (i : ℚ) + (p.1 : ℚ) * (1/10) := by
        simp [mtContrib, hf]
      rw [hstep, foldl_mtStep cts t]
      simp only [List.map_cons, List.sum_cons, List.countP_cons, hf,
        Option.isSome_some, hcontrib, Prod.mk.injEq]
      constructor
      · ring
      · simp
        omega
    | none =>
      have hstep : mtStep cts (a, k) p = (a, k) := by
        simp [mtStep, hf]
      have hcontrib : mtContrib cts p = 0 := by
        simp [mtContrib, hf]
      rw [hstep, foldl_mtStep cts t]
      simp only [List.map_cons, List.sum_cons, List.countP_cons, hf,
        Option.isSome_none, hcontrib, Prod.mk.injEq]
      constructor
      · ring
      · simp

theorem flatten_take1_length :
    ∀ ts : List String, (∀ t ∈ ts, 0 < t.length) →
      ((ts.map (fun t => t.data.take 1)).flatten).length = ts.length
  | [], _ => rfl
  | t :: r, h => by
    have ht : 0 < t.length := h t (List.mem_cons_self _ _)
    have hr := flatten_take1_length r (fun x hx => h x (List.mem_cons_of_mem _ hx))
    have htd : 0 < t.data.length := ht
    simp [List.length_append, hr, List.length_take]
    omega

theorem extractTokens_pos_length (name : String) :
    ∀ t ∈ extractTokens name, 0 < t.length := by
  intro t ht
  unfold extractTokens at ht
  have h1 := (List.mem_filter.mp ht).1
  have h2 := (List.mem_filter.mp h1).2
  simpa using h2

/-! ### Concrete records and intents used by examples and witnesses -/

/-- A legacy catalog record: no derived search fields. -/
def legacyStormFalcon : Card :=
  { name := some "Storm Falcon", search_normalized := "storm falcon",
    first_letter := "s", set_code := "NEO" }

/-- A fully indexed catalog record for the same name. -/
def indexedStormFalcon : Card :=
  { name := some "Storm Falcon", name_lower := some "storm falcon",
    name_normalized := some "storm falcon",
    search_normalized := "storm falcon", first_letter := "s",
    tokens := some ["storm", "falcon"], initials := some "sf",
    progressive_initials := some ["s", "sf"], set_code := "NEO" }

/-- A multi-token intent, as the classifier produces for "storm fal". -/
def multiTokenIntent : Intent :=
  { strategy := "multi_token", query := "storm fal",
    tokens := ["storm", "fal"], firstToken := "storm" }

/-- A prefix intent whose query occurs in no record below. -/
def prefixQueryIntent : Intent :=
  { strategy := "prefix", query := "xyz" }

/-- Indexed record whose normalized name does not contain "xyz". -/
def cardNoOccurrence : Card :=
  { search_normalized := "abc", tokens := some ["abc"], initials := some "a" }

/-- Indexed record whose normalized name starts with "xyz". -/
def cardExactMatch : Card :=
  { search_normalized := "xyzw", tokens := some ["xyzw"], initials := some "x" }

/-- An intent whose strategy is none of the five the classifier emits. -/
def bogusIntent : Intent :=
  { strategy := "totally_unknown", query := "storm" }

/-! ### C1 -/

/-- C1, counterexample: the name "of" is non-empty, yet `extractTokens`
returns the empty list — stop-word-only names do *not* fall back to
whole-string tokenization. -/
theorem extractTokens_stopword_only_empty :
    extractTokens "of" = [] ∧ "of" ≠ "" := by decide

/-- C1, amended: `extractTokens` is non-empty exactly when some
whitespace/dash-separated fragment of the lowercased name is non-empty
and not a stop word; there is no whole-string fallback. -/
theorem extractTokens_ne_nil_of_fragment (name : String)
    (h : ∃ t ∈ fragmentsOf name, 0 < t.length ∧ t ∉ STOP_WORDS) :
    extractTokens name ≠ [] := by
  obtain ⟨t, htmem, hlen, hstop⟩ := h
  have hmem : t ∈ extractTokens name := by
    unfold extractTokens
    refine List.mem_filter.mpr ⟨List.mem_filter.mpr ⟨htmem, ?_⟩, ?_⟩
    · simpa using hlen
    · simpa using hstop
  exact List.ne_nil_of_mem hmem

/-- C1, witness for the amended theorem at the name "storm falcon". -/
theorem extractTokens_ne_nil_of_fragment_witness :
    extractTokens "storm falcon" ≠ [] :=
  extractTokens_ne_nil_of_fragment "storm falcon" (by decide)

/-! ### C2 -/

/-- C2: the classifier maps each specified example input to the
specified intent: "SF" to initials, "Sf" to prefix, "S F" to
space-initials with normalized query "sf", "storm fal" to multi-token
with tokens ["storm", "fal"], "sto" to prefix, and empty or
whitespace-only input to empty. -/
theorem detectSearchIntent_examples :
    (detectSearchIntent "SF").strategy = "initials" ∧
    (detectSearchIntent "Sf").strategy = "prefix" ∧
    (detectSearchIntent "S F").strategy = "space_initials" ∧
    (detectSearchIntent "S F").query = "sf" ∧
    (detectSearchIntent "storm fal").strategy = "multi_token" ∧
    (detectSearchIntent "storm fal").tokens = ["storm", "fal"] ∧
    (detectSearchIntent "sto").strategy = "prefix" ∧
    (detectSearchIntent "").strategy = "empty" ∧
    (detectSearchIntent "   ").strategy = "empty" := by decide

/-! ### C10 -/

/-- C10: under a prefix intent, a record with derived fields whose
normalized name does not contain the query at all scores `-1` (JS
`indexOf` miss), which ranks strictly better than the `0` of an exact
prefix match at position 0. -/
theorem scoreMatch_prefix_negative_example :
    scoreMatch prefixQueryIntent cardNoOccurrence = -1 ∧
    scoreMatch prefixQueryIntent cardExactMatch = 0 ∧
    ((-1 : ℚ) < 0) := by
  refine ⟨?_, ?_, by norm_num⟩ <;> decide

/-! ### C5 -/

/-- C5, counterexample: a record with no derived search fields is
excluded outright by both `searchByInitials` and `searchByMultiToken`,
even though re-deriving from its name would match ("Storm Falcon" has
initials "sf" and token-prefix-matches "storm fal"). -/
theorem legacy_record_excluded_example :
    searchByInitials "sf" none [legacyStormFalcon] = [] ∧
    generateInitials "Storm Falcon" = "sf" ∧
    searchByMultiToken ["storm", "fal"] "storm" none [legacyStormFalcon] = [] ∧
    matchesTokenPrefixes ["storm", "fal"] (extractTokens "Storm Falcon") = true := by
  decide

/-- C5, amended: retrieval under the initials, space-initials and
multi-token strategies *skips* every record missing the derived field it
needs (falsy `initials`/missing `progressive_initials`, or missing
`tokens`); only the scorer has an on-the-fly fallback for such
records. -/
theorem legacy_record_excluded (q : String) (sf : Option (List String))
    (cards : List Card) (c : Card) :
    ((initialsFalsy c = true ∨ c.progressive_initials = none) →
      c ∉ searchByInitials q sf cards) ∧
    (c.tokens = none →
      ∀ (toks : List String) (ft : String), c ∉ searchByMultiToken toks ft sf cards) := by
  constructor
  · intro h hmem
    have hp := (List.mem_filter.mp hmem).2
    rcases h with h | h <;> simp [searchByInitials, h] at hp
  · intro h toks ft hmem
    unfold searchByMultiToken at hmem
    by_cases hft : (ft == "") = true
    · rw [if_pos hft] at hmem
      cases hmem
    · rw [if_neg hft] at hmem
      have hp := (List.mem_filter.mp hmem).2
      simp [tokensFalsy, h] at hp

/-- C5, witness for the amended theorem at the legacy record. -/
theorem legacy_record_excluded_witness :
    legacyStormFalcon ∉ searchByInitials "sf" none [legacyStormFalcon] ∧
    legacyStormFalcon ∉ searchByMultiToken ["storm", "fal"] "storm" none [legacyStormFalcon] :=
  ⟨(legacy_record_excluded "sf" none [legacyStormFalcon] legacyStormFalcon).1
      (Or.inl (by decide)),
   (legacy_record_excluded "sf" none [legacyStormFalcon] legacyStormFalcon).2
      (by decide) ["storm", "fal"] "storm"⟩

/-! ### C6 -/

/-- C6, counterexample: `normalizeForSearch` does *not* collapse
internal whitespace runs — on "a  b" it keeps the double space, while
the spec's description (`normalizeForSearchSpec`) collapses it. -/
theorem normalizeForSearch_no_collapse :
    normalizeForSearch "a  b" ≠ normalizeForSearchSpec "a  b" ∧
    normalizeForSearch "a  b" = "a  b" ∧
    normalizeForSearchSpec "a  b" = "a b" := by decide

/-- C6, amended: `normalizeForSearch` returns the lowercased name with
apostrophes removed and all characters other than word characters,
whitespace and hyphens removed, trimmed — with internal whitespace
preserved as-is (no collapsing). -/
theorem normalizeForSearch_characterization (name : String) :
    normalizeForSearch name =
      String.mk (trimChars ((jsToLower name).data.filter
        (fun c => (isWordChar c || isWsChar c || c == '-') &&
          !(c == apostropheChar)))) := by
  simp [normalizeForSearch, List.filter_filter]

/-! ### C7 -/

/-- C7, counterexample: handed an intent with an unknown strategy,
`searchWithIntent` silently returns the empty result list — no
classification error is surfaced (the function has no error outcome at
all) — even though the catalog holds a record the prefix strategy would
have returned for the same query. -/
theorem searchWithIntent_unknown_silent_example :
    searchWithIntent bogusIntent none 20 [indexedStormFalcon] = [] ∧
    searchByPrefix "storm" none [indexedStormFalcon] = [indexedStormFalcon] := by
  decide

/-- C7, amended: for every intent whose strategy is not one of the four
retrieval strategies, `searchWithIntent` silently returns the empty
list (the `default:` branch); no error is raised. -/
theorem searchWithIntent_unknown_returns_nil (intent : Intent)
    (sf : Option (List String)) (maxResults : Nat) (cards : List Card)
    (h : intent.strategy ∉
      (["initials", "space_initials", "multi_token", "prefix"] : List String)) :
    searchWithIntent intent sf maxResults cards = [] := by
  simp only [List.mem_cons, List.not_mem_nil, or_false, not_or] at h
  obtain ⟨h1, h2, h3, h4⟩ := h
  simp [searchWithIntent, retrieveCandidates, h1, h2, h3, h4]

/-- C7, witness for the amended theorem at a concrete unknown-strategy
intent. -/
theorem searchWithIntent_unknown_returns_nil_witness :
    searchWithIntent bogusIntent none 20 [legacyStormFalcon] = [] :=
  searchWithIntent_unknown_returns_nil bogusIntent none 20 [legacyStormFalcon]
    (by decide)

/-! ### C8 -/

/-- C8: for every query, set filter, `maxResults` and catalog, the
ranked result list of `searchCards` has length at most `maxResults`
(`slice(0, maxResults)` truncates after the stable ascending sort). -/
theorem searchCards_length_le (query : String) (activeSets : List String)
    (maxResults : Nat) (cards : List Card) :
    (searchCards query activeSets maxResults cards).length ≤ maxResults := by
  unfold searchCards
  split
  · simp
  · cases h : retrieveCandidates (detectSearchIntent query)
        (if 0 < activeSets.length then some (activeSets.map jsToUpper) else none)
        cards with
    | none => simp [searchWithIntent, h]
    | some cs =>
      simp only [searchWithIntent, h, rankCandidates, List.length_map]
      exact List.length_take_le _ _

/-! ### C4 -/

/-- C4: for every name, the initials string has exactly one character
per token, and the progressive initials list is exactly the ordered
sequence of the non-empty prefixes of the initials: it has one entry per
initials character, entry `i` is a length-`i+1` prefix of the initials,
and (when the initials are non-empty) the last entry is the initials
string itself. -/
theorem derived_fields_shape (name : String) :
    (generateInitials name).length = (extractTokens name).length ∧
    (generateProgressiveInitials name).length = (generateInitials name).length ∧
    (∀ i (h : i < (generateProgressiveInitials name).length),
      ((generateProgressiveInitials name).get ⟨i, h⟩).length = i + 1 ∧
      jsStartsWith (generateInitials name)
        ((generateProgressiveInitials name).get ⟨i, h⟩) = true) ∧
    (generateInitials name ≠ "" →
      (generateProgressiveInitials name).getLast? = some (generateInitials name)) := by
  refine ⟨?_, ?_, ?_, ?_⟩
  · exact flatten_take1_length (extractTokens name) (extractTokens_pos_length name)
  · simp [generateProgressiveInitials]
  · intro i h
    have hlen : (generateProgressiveInitials name).length = (generateInitials name).length := by
      simp [generateProgressiveInitials]
    have hget : (generateProgressiveInitials name).get ⟨i, h⟩ =
        String.mk ((generateInitials name).data.take (i + 1)) := by
      simp [generateProgressiveInitials, List.get_eq_getElem]
    have hi : i < (generateInitials name).data.length := by
      have : (generateInitials name).length = (generateInitials name).data.length := rfl
      omega
    constructor
    · rw [hget]
      show ((generateInitials name).data.take (i + 1)).length = i + 1
      simp [List.length_take]
      omega
    · rw [hget]
      simp only [jsStartsWith, decide_eq_true_eq]
      exact ⟨(generateInitials name).data.drop (i + 1), List.take_append_drop _ _⟩
  · intro hne
    have hd : (generateInitials name).data ≠ [] :=
      fun hnil => hne ((string_eq_empty_iff _).mpr hnil)
    have hpos : 0 < (generateInitials name).length := List.length_pos.mpr hd
    have hlen : (generateProgressiveInitials name).length = (generateInitials name).length := by
      simp [generateProgressiveInitials]
    rw [List.getLast?_eq_getElem? _]
    rw [List.getElem?_eq_getElem (by omega)]
    congr 1
    have hidx : (generateProgressiveInitials name).length - 1 < (generateInitials name).length := by
      omega
    have hstep : (generateInitials name).length - 1 + 1 = (generateInitials name).length := by
      omega
    simp only [generateProgressiveInitials, List.getElem_map, List.getElem_range,
      List.length_map, List.length_range]
    rw [hstep]
    show String.mk ((generateInitials name).data.take (generateInitials name).data.length) =
      generateInitials name
    rw [List.take_length]

/-- C4, witness: the shape properties instantiated at "Storm Falcon"
(progressive entry 0 has length 1; the non-empty-initials hypothesis is
discharged and the last entry is the initials). -/
theorem derived_fields_shape_witness :
    ((generateProgressiveInitials "Storm Falcon").get ⟨0, by decide⟩).length = 0 + 1 ∧
    generateInitials "Storm Falcon" ≠ "" ∧
    (generateProgressiveInitials "Storm Falcon").getLast? =
      some (generateInitials "Storm Falcon") :=
  ⟨((derived_fields_shape "Storm Falcon").2.2.1 0 (by decide)).1, by decide,
   (derived_fields_shape "Storm Falcon").2.2.2 (by decide)⟩

/-! ### C9 -/

/-- C9: for every name and non-empty query, membership of the query in
the progressive initials equals the initials starting with the query;
hence the retrieval disjunction of `searchByInitials`
(`initials.startsWith(query) || progressive_initials.includes(query)`)
collapses to the `startsWith` test alone for fields derived by
`generateInitials`/`generateProgressiveInitials`. -/
theorem progressive_contains_iff_startsWith (name q : String) (h : q ≠ "") :
    (generateProgressiveInitials name).contains q =
      jsStartsWith (generateInitials name) q ∧
    (jsStartsWith (generateInitials name) q ||
        (generateProgressiveInitials name).contains q) =
      jsStartsWith (generateInitials name) q := by
  have hqd : q.data ≠ [] := fun hnil => h ((string_eq_empty_iff q).mpr hnil)
  have hiff : q ∈ generateProgressiveInitials name ↔
      q.data <+: (generateInitials name).data := by
    simp only [generateProgressiveInitials]
    constructor
    · intro hm
      obtain ⟨i, hi, hq⟩ := List.mem_map.mp hm
      have : q.data = (generateInitials name).data.take (i + 1) :=
        (congrArg String.data hq).symm
      rw [this]
      exact ⟨(generateInitials name).data.drop (i + 1), List.take_append_drop _ _⟩
    · intro hp
      have hqtake : q.data = (generateInitials name).data.take q.data.length :=
        List.prefix_iff_eq_take.mp hp
      have hle : q.data.length ≤ (generateInitials name).data.length := hp.length_le
      have hpos : 0 < q.data.length := List.length_pos.mpr hqd
      refine List.mem_map.mpr ⟨q.data.length - 1, ?_, ?_⟩
      · refine List.mem_range.mpr ?_
        show q.data.length - 1 < (generateInitials name).data.length
        omega
      · have hstep : q.data.length - 1 + 1 = q.data.length := by omega
        rw [hstep, ← hqtake]
  have main : (generateProgressiveInitials name).contains q =
      jsStartsWith (generateInitials name) q := by
    by_cases hp : q.data <+: (generateInitials name).data
    · have h1 : (generateProgressiveInitials name).contains q = true := by
        simpa using hiff.mpr hp
      have h2 : jsStartsWith (generateInitials name) q = true := by
        simp [jsStartsWith, hp]
      rw [h1, h2]
    · have h1 : (generateProgressiveInitials name).contains q = false := by
        simpa using fun hm => hp (hiff.mp hm)
      have h2 : jsStartsWith (generateInitials name) q = false := by
        simp [jsStartsWith, hp]
      rw [h1, h2]
  exact ⟨main, by rw [main, Bool.or_self]⟩

/-- C9, witness at name "Storm Falcon" and query "s". -/
theorem progressive_contains_iff_startsWith_witness :
    ("s" : String) ≠ "" ∧
    (generateProgressiveInitials "Storm Falcon").contains "s" =
      jsStartsWith (generateInitials "Storm Falcon") "s" :=
  ⟨by decide, (progressive_contains_iff_startsWith "Storm Falcon" "s" (by decide)).1⟩

/-! ### C3 -/

/-- C3: under a multi-token intent, a record with derived search fields
scores 1000 unless every query token is a prefix of some record token;
otherwise the score is the sum, over the (index, token) pairs of the
query, of the index of the first matching record token plus 0.1 times
the query token's own index (numeric arithmetic embedded exactly
over ℚ). -/
theorem scoreMatch_multi_token_eq (intent : Intent) (card : Card)
    (cts : List String)
    (hstrat : intent.strategy = "multi_token")
    (htok : card.tokens = some cts)
    (hini : initialsFalsy card = false) :
    scoreMatch intent card =
      if intent.tokens.all (fun q => cts.any (fun c => jsStartsWith c q)) then
        (intent.tokens.enum.map (fun p =>
          (((findFirstIdx (fun c => jsStartsWith c p.2) cts).getD 0 : ℚ)
            + (1/10) * (p.1 : ℚ)))).sum
      else 1000 := by
  have htf : tokensFalsy card = false := by simp [tokensFalsy, htok]
  have hL : scoreMatch intent card =
      (if (List.foldl (mtStep cts) ((0 : ℚ), (0 : Nat)) intent.tokens.enum).2 =
          intent.tokens.length then
        (List.foldl (mtStep cts) ((0 : ℚ), (0 : Nat)) intent.tokens.enum).1
      else 1000) := by
    simp [scoreMatch, htf, hini, htok, hstrat]
  rw [hL, foldl_mtStep cts intent.tokens.enum 0 0]
  simp only [zero_add]
  rw [enum_countP_snd (fun q => (findFirstIdx (fun c => jsStartsWith c q) cts).isSome)]
  have hcond : (intent.tokens.countP
        (fun q => (findFirstIdx (fun c => jsStartsWith c q) cts).isSome) =
      intent.tokens.length) ↔
      (intent.tokens.all (fun q => cts.any (fun c => jsStartsWith c q)) = true) := by
    rw [List.countP_eq_length]
    constructor
    · intro h
      rw [List.all_eq_true]
      intro q hq
      have hx := h q hq
      rwa [findFirstIdx_isSome] at hx
    · intro h q hq
      rw [findFirstIdx_isSome]
      exact List.all_eq_true.mp h q hq
  by_cases hall : intent.tokens.all (fun q => cts.any (fun c => jsStartsWith c q)) = true
  · rw [if_pos (hcond.mpr hall), if_pos hall]
    refine congrArg List.sum (List.map_congr_left ?_)
    intro p hp
    have hmem : p.2 ∈ intent.tokens := enum_snd_mem hp
    have hany : cts.any (fun c => jsStartsWith c p.2) = true :=
      List.all_eq_true.mp hall _ hmem
    have hsome : (findFirstIdx (fun c => jsStartsWith c p.2) cts).isSome = true := by
      rw [findFirstIdx_isSome]
      exact hany
    obtain ⟨i, hi⟩ := Option.isSome_iff_exists.mp hsome
    simp only [mtContrib, hi, Option.getD_some]
    ring
  · rw [if_neg (fun hc => hall (hcond.mp hc)), if_neg hall]

/-- C3, witness: the multi-token scoring equation instantiated at the
intent for "storm fal" and the fully indexed "Storm Falcon" record. -/
theorem scoreMatch_multi_token_eq_witness :
    multiTokenIntent.strategy = "multi_token" ∧
    indexedStormFalcon.tokens = some ["storm", "falcon"] ∧
    initialsFalsy indexedStormFalcon = false ∧
    scoreMatch multiTokenIntent indexedStormFalcon =
      (if multiTokenIntent.tokens.all
          (fun q => (["storm", "falcon"] : List String).any (fun c => jsStartsWith c q)) then
        (multiTokenIntent.tokens.enum.map (fun p =>
          (((findFirstIdx (fun c => jsStartsWith c p.2) ["storm", "falcon"]).getD 0 : ℚ)
            + (1/10) * (p.1 : ℚ)))).sum
      else 1000) :=
  ⟨rfl, rfl, by decide,
   scoreMatch_multi_token_eq multiTokenIntent indexedStormFalcon
     ["storm", "falcon"] rfl rfl (by decide)⟩
